import Mathlib

/-!
Verification development for the rag-clean-energy ingestion core.

The definitions below are a shallow embedding of the repository's Python
sources:
  * `src/db_mysql/dao/models.py`   (WebPage / WebPageChunk ORM models)
  * `src/db_mysql/mysql_manager.py` (relational CRUD used by the orchestrator)
  * `src/rag/vectore_stores/chroma.py` (ChromaVectorStore add/delete)
  * `src/rag/librarian.py`         (DataAgent orchestrator)
  * `src/rag/scrapers/web_scraper.py` (BFS crawler)

Machine-level conventions: timestamps are modelled as `Int` seconds since
the epoch (Python `datetime` is totally ordered and `timedelta(days=f)` is
`f * 86400` seconds); byte values and 32-bit words are `Nat` with explicit
`% 2^32` masking where overflow matters; the ambient wall clock
(`datetime.now()`) is passed explicitly as a `now` parameter; fallible
calls return `Except`/`Option`.
-/

/-! ## SHA-256 (hashlib.sha256(...).hexdigest() over the UTF-8 encoding)

`WebPage.__init__` and `MySQLManager.check_web_page_exists` both compute
`hashlib.sha256(source.encode('utf-8')).hexdigest()`.  The function is
embedded in full (FIPS 180-4) so the checksum key is a real executable
function of the source string. -/

def shaMask (x : Nat) : Nat := x % 4294967296

def rotr (n x : Nat) : Nat := x / 2 ^ n + x % 2 ^ n * 2 ^ (32 - n) % 4294967296

def shr (n x : Nat) : Nat := x / 2 ^ n

def not32 (x : Nat) : Nat := 4294967295 ^^^ x

def shaCh (x y z : Nat) : Nat := (x &&& y) ^^^ (not32 x &&& z)

def shaMaj (x y z : Nat) : Nat := (x &&& y) ^^^ (x &&& z) ^^^ (y &&& z)

def bigSigma0 (x : Nat) : Nat := rotr 2 x ^^^ rotr 13 x ^^^ rotr 22 x

def bigSigma1 (x : Nat) : Nat := rotr 6 x ^^^ rotr 11 x ^^^ rotr 25 x

def smallSigma0 (x : Nat) : Nat := rotr 7 x ^^^ rotr 18 x ^^^ shr 3 x

def smallSigma1 (x : Nat) : Nat := rotr 17 x ^^^ rotr 19 x ^^^ shr 10 x

def shaK : List Nat :=
  [1116352408, 1899447441, 3049323471, 3921009573, 961987163,
   1508970993, 2453635748, 2870763221, 3624381080, 310598401,
   607225278, 1426881987, 1925078388, 2162078206, 2614888103,
   3248222580, 3835390401, 4022224774, 264347078, 604807628,
   770255983, 1249150122, 1555081692, 1996064986, 2554220882,
   2821834349, 2952996808, 3210313671, 3336571891, 3584528711,
   113926993, 338241895, 666307205, 773529912, 1294757372,
   1396182291, 1695183700, 1986661051, 2177026350, 2456956037,
   2730485921, 2820302411, 3259730800, 3345764771, 3516065817,
   3600352804, 4094571909, 275423344, 430227734, 506948616,
   659060556, 883997877, 958139571, 1322822218, 1537002063,
   1747873779, 1955562222, 2024104815, 2227730452, 2361852424,
   2428436474, 2756734187, 3204031479, 3329325298]

structure H8 where
  a : Nat
  b : Nat
  c : Nat
  d : Nat
  e : Nat
  f : Nat
  g : Nat
  h : Nat
deriving DecidableEq, Repr

def shaInit : H8 :=
  ⟨1779033703, 3144134277, 1013904242, 2773480762,
   1359893119, 2600822924, 528734635, 1541459225⟩

def shaRound (st : H8) (kw : Nat × Nat) : H8 :=
  let t1 := shaMask (st.h + bigSigma1 st.e + shaCh st.e st.f st.g + kw.1 + kw.2)
  let t2 := shaMask (bigSigma0 st.a + shaMaj st.a st.b st.c)
  ⟨shaMask (t1 + t2), st.a, st.b, st.c, shaMask (st.d + t1), st.e, st.f, st.g⟩

def extendW : Nat → List Nat → List Nat
  | 0, ws => ws
  | n + 1, ws =>
      let len := ws.length
      let w := shaMask (smallSigma1 (ws.getD (len - 2) 0) + ws.getD (len - 7) 0 +
        smallSigma0 (ws.getD (len - 15) 0) + ws.getD (len - 16) 0)
      extendW n (ws ++ [w])

def bytesToWords : List Nat → List Nat
  | b0 :: b1 :: b2 :: b3 :: rest =>
      (b0 * 16777216 + b1 * 65536 + b2 * 256 + b3) :: bytesToWords rest
  | _ => []

def shaCompress (h0 : H8) (block : List Nat) : H8 :=
  let ws := extendW 48 (bytesToWords block)
  let r := (List.zip shaK ws).foldl shaRound h0
  ⟨shaMask (h0.a + r.a), shaMask (h0.b + r.b), shaMask (h0.c + r.c),
   shaMask (h0.d + r.d), shaMask (h0.e + r.e), shaMask (h0.f + r.f),
   shaMask (h0.g + r.g), shaMask (h0.h + r.h)⟩

def natToBytesBE (n v : Nat) : List Nat :=
  (List.range n).map fun i => v / 2 ^ (8 * (n - 1 - i)) % 256

def shaPad (msg : List Nat) : List Nat :=
  let len := msg.length
  let k := (56 + 64 - (len + 1) % 64) % 64
  msg ++ [128] ++ List.replicate k 0 ++ natToBytesBE 8 (8 * len)

def shaBlocks : List Nat → List (List Nat)
  | [] => []
  | x :: rest => (x :: rest).take 64 :: shaBlocks ((x :: rest).drop 64)
termination_by l => l.length
decreasing_by simp [List.length_drop]; omega

def sha256Bytes (msg : List Nat) : List Nat :=
  let hf := (shaBlocks (shaPad msg)).foldl shaCompress shaInit
  natToBytesBE 4 hf.a ++ natToBytesBE 4 hf.b ++ natToBytesBE 4 hf.c ++
  natToBytesBE 4 hf.d ++ natToBytesBE 4 hf.e ++ natToBytesBE 4 hf.f ++
  natToBytesBE 4 hf.g ++ natToBytesBE 4 hf.h

def encodeUtf8Char (c : Char) : List Nat :=
  let n := c.toNat
  if n < 128 then [n]
  else if n < 2048 then [192 + n / 64, 128 + n % 64]
  else if n < 65536 then [224 + n / 4096, 128 + n / 64 % 64, 128 + n % 64]
  else [240 + n / 262144, 128 + n / 4096 % 64, 128 + n / 64 % 64, 128 + n % 64]

def utf8Bytes (s : String) : List Nat := (s.data.map encodeUtf8Char).flatten

def hexChar (n : Nat) : Char :=
  if n < 10 then Char.ofNat (48 + n) else Char.ofNat (87 + n)

def byteToHex (b : Nat) : List Char := [hexChar (b / 16), hexChar (b % 16)]

/-- Model of `hashlib.sha256(s.encode('utf-8')).hexdigest()`. -/
def sha256_hexdigest (s : String) : String :=
  ⟨((sha256Bytes (utf8Bytes s)).map byteToHex).flatten⟩

/-! ## Relational data model (`src/db_mysql/dao/models.py`) -/

/-- Row of the `web_page` table.  `date` is the last-scraped timestamp in
epoch seconds; `refresh_frequency` is in days (`none` = never refresh). -/
structure WebPage where
  source : String
  checksum : String
  date : Int
  refresh_frequency : Option Int
  language : String
deriving DecidableEq, Repr

/-- Model of `WebPage.__init__`: checksum is derived from the source, date is the
construction-time clock. -/
def mkWebPage (source : String) (freq : Option Int) (language : String)
    (now : Int) : WebPage :=
  { source := source
    checksum := sha256_hexdigest source
    date := now
    refresh_frequency := freq
    language := language }

/-- Model of `WebPage.next_refresh_due`: `date + timedelta(days=refresh_frequency)`,
or `None` when no refresh is set. -/
def next_refresh_due (p : WebPage) : Option Int :=
  match p.refresh_frequency with
  | none => none
  | some f => some (p.date + f * 86400)

/-- Model of `WebPage.is_refresh_needed`, with `datetime.now()` passed in as `now`. -/
def is_refresh_needed (now : Int) (p : WebPage) : Bool :=
  match p.refresh_frequency with
  | none => false
  | some _ =>
      match next_refresh_due p with
      | none => false
      | some due => decide (now ≥ due)

/-- Row of the `web_page_chunk` table. -/
structure WebPageChunk where
  id : String
  source : String
deriving DecidableEq, Repr

/-- The relational store: the two web tables. -/
structure MySQLDB where
  pages : List WebPage
  chunks : List WebPageChunk
deriving DecidableEq, Repr

/-- Model of `MySQLManager.check_web_page_exists`: recompute the SHA-256 checksum of
the url and return the first row whose stored checksum matches. -/
def check_web_page_exists (db : MySQLDB) (url : String) : Option WebPage :=
  db.pages.find? fun p => p.checksum == sha256_hexdigest url

/-- C4: `is_refresh_needed` is a pure function of the stored date and
`refresh_frequency`: it returns `false` when the frequency is unset, and
otherwise returns `true` exactly when `now ≥ date + frequency` days; at the
boundary, a page whose date is exactly 7 days old with frequency 7 is due
(`≥`, not `>`), while one 6 days old is not. -/
theorem c4_is_refresh_needed_boundary (now : Int) (p : WebPage) :
    (p.refresh_frequency = none → is_refresh_needed now p = false) ∧
    (∀ f : Int, p.refresh_frequency = some f →
      (is_refresh_needed now p = true ↔ now ≥ p.date + f * 86400)) ∧
    is_refresh_needed now (mkWebPage "https://x.org" (some 7) "en"
      (now - 7 * 86400)) = true ∧
    is_refresh_needed now (mkWebPage "https://x.org" (some 7) "en"
      (now - 6 * 86400)) = false := by
  refine ⟨fun h => by simp [is_refresh_needed, h], fun f hf => ?_, ?_, ?_⟩
  · simp [is_refresh_needed, next_refresh_due, hf]
  · simp only [is_refresh_needed, next_refresh_due, mkWebPage,
      decide_eq_true_eq, ge_iff_le]
    omega
  · simp [is_refresh_needed, next_refresh_due, mkWebPage]
    omega

/-- Witness for C4 at a concrete page: frequency 7, date exactly 7 days
before `now = 7 * 86400`. -/
theorem c4_is_refresh_needed_boundary_witness :
    is_refresh_needed (7 * 86400)
      (mkWebPage "https://x.org" (some 7) "en" 0) = true := by
  have h := (c4_is_refresh_needed_boundary (7 * 86400)
    (mkWebPage "https://x.org" (some 7) "en" 0)).2.1 7 rfl
  exact h.2 (show (7 : Int) * 86400 ≥ 0 + 7 * 86400 by omega)

/-! ## Langchain documents and MySQL batch CRUD -/

/-- A langchain `Document` as the pipeline uses it: `metadata['source']`,
`metadata['page']` (both possibly absent) and the page content. -/
structure Document where
  metadata_source : Option String
  metadata_page : Option String
  page_content : String
deriving DecidableEq, Repr

/-- Model of `MySQLManager.insert_web_pages`: augment each metadata dict with the
SHA-256 checksum of its source and the current date, then bulk-insert. -/
structure PageMeta where
  source : String
  refresh_frequency : Option Int
  language : String
deriving DecidableEq, Repr

def insert_web_pages (now : Int) (db : MySQLDB) (metas : List PageMeta) :
    MySQLDB :=
  { db with pages := db.pages ++ metas.map fun m =>
      { source := m.source
        checksum := sha256_hexdigest m.source
        date := now
        refresh_frequency := m.refresh_frequency
        language := m.language } }

/-- One `{id, source}` (plus optional secondary key) record returned by the
vector store for each inserted chunk. -/
structure ChunkRec where
  id : String
  source : String
  page : Option String
deriving DecidableEq, Repr

/-- Model of `MySQLManager.insert_web_page_chunks`: bulk-insert chunk identity rows. -/
def insert_web_page_chunks (db : MySQLDB) (recs : List ChunkRec) : MySQLDB :=
  { db with chunks := db.chunks ++ recs.map fun r => ⟨r.id, r.source⟩ }

/-! ## C8: checksum round trip -/

theorem find?_append_of_none {α : Type} (p : α → Bool) (l1 l2 : List α)
    (h : ∀ a ∈ l1, p a = false) : (l1 ++ l2).find? p = l2.find? p := by
  induction l1 with
  | nil => rfl
  | cons x xs ih =>
      have hx := h x (by simp)
      simp only [List.cons_append, List.find?, hx]
      exact ih fun a ha => h a (by simp [ha])

/-- C8: the checksum stored by `WebPage.__init__` is the SHA-256 hex digest
of the source, `check_web_page_exists` recomputes the same function, and
hence inserting a `WebPage` built from `url` into a table with no prior row
for that checksum and looking `url` up again finds exactly that row. -/
theorem c8_checksum_roundtrip (db : MySQLDB) (url language : String)
    (freq : Option Int) (now : Int)
    (h : ∀ p ∈ db.pages, p.checksum ≠ sha256_hexdigest url) :
    (mkWebPage url freq language now).checksum = sha256_hexdigest url ∧
    check_web_page_exists
      { db with pages := db.pages ++ [mkWebPage url freq language now] } url
      = some (mkWebPage url freq language now) := by
  refine ⟨rfl, ?_⟩
  unfold check_web_page_exists
  have h2 : ∀ p ∈ db.pages, (p.checksum == sha256_hexdigest url) = false :=
    fun p hp => beq_eq_false_iff_ne.mpr (h p hp)
  rw [find?_append_of_none _ _ _ h2]
  simp [List.find?, mkWebPage]

/-- Witness for C8: inserting into an empty table and looking up again. -/
theorem c8_checksum_roundtrip_witness :
    check_web_page_exists
      { pages := [] ++ [mkWebPage "https://a.org" none "en" 0], chunks := [] }
      "https://a.org" = some (mkWebPage "https://a.org" none "en" 0) :=
  (c8_checksum_roundtrip ⟨[], []⟩ "https://a.org" "en" none 0
    (by simp)).2

/-! ## C3: document categorizer (`DataAgent._categorize_web_documents`) -/

/-- Model of `DataAgent._categorize_web_documents`: split scraped documents into
(new, expired, up_to_date) by checksum lookup and refresh due-ness.  A
missing `metadata['source']` raises `KeyError`, which the surrounding
`except` swallows, returning the lists accumulated so far. -/
def categorize_web_documents (db : MySQLDB) (now : Int) :
    List Document → List Document × List Document × List Document
  | [] => ([], [], [])
  | d :: rest =>
      match d.metadata_source with
      | none => ([], [], [])
      | some src =>
          let tail := categorize_web_documents db now rest
          match check_web_page_exists db src with
          | some page =>
              if is_refresh_needed now page then
                (tail.1, d :: tail.2.1, tail.2.2)
              else
                (tail.1, tail.2.1, d :: tail.2.2)
          | none => (d :: tail.1, tail.2.1, tail.2.2)

def docSrc (d : Document) : String := d.metadata_source.getD ""

def isNewDoc (db : MySQLDB) (d : Document) : Bool :=
  (check_web_page_exists db (docSrc d)).isNone

def isExpiredDoc (db : MySQLDB) (now : Int) (d : Document) : Bool :=
  match check_web_page_exists db (docSrc d) with
  | some page => is_refresh_needed now page
  | none => false

def isUpToDateDoc (db : MySQLDB) (now : Int) (d : Document) : Bool :=
  match check_web_page_exists db (docSrc d) with
  | some page => !is_refresh_needed now page
  | none => false

theorem categorize_eq_filters (db : MySQLDB) (now : Int)
    (docs : List Document)
    (h : ∀ d ∈ docs, d.metadata_source.isSome = true) :
    categorize_web_documents db now docs =
      (docs.filter (isNewDoc db), docs.filter (isExpiredDoc db now),
       docs.filter (isUpToDateDoc db now)) := by
  induction docs with
  | nil => rfl
  | cons d rest ih =>
      obtain ⟨src, hsrc⟩ :=
        Option.isSome_iff_exists.mp (h d (List.mem_cons_self d rest))
      have ht := ih fun x hx => h x (List.mem_cons_of_mem _ hx)
      have hds : docSrc d = src := by simp [docSrc, hsrc]
      simp only [categorize_web_documents, hsrc, ht]
      cases hc : check_web_page_exists db src with
      | none =>
          simp [List.filter_cons, isNewDoc, isExpiredDoc, isUpToDateDoc,
            hds, hc]
      | some page =>
          cases hr : is_refresh_needed now page <;>
            simp [List.filter_cons, isNewDoc, isExpiredDoc, isUpToDateDoc,
              hds, hc, hr]

/-- C3: on scraped documents (whose `metadata['source']` is always set) the
categorizer partitions the input into three lists: documents with no row
under the SHA-256 checksum of their source go to new, documents whose
stored row is refresh-due go to expired, the rest go to up_to_date; the
three membership predicates are mutually exclusive and exhaustive. -/
theorem c3_categorize_partition (db : MySQLDB) (now : Int)
    (docs : List Document)
    (h : ∀ d ∈ docs, d.metadata_source.isSome = true) :
    categorize_web_documents db now docs =
      (docs.filter (isNewDoc db), docs.filter (isExpiredDoc db now),
       docs.filter (isUpToDateDoc db now)) ∧
    ∀ d : Document,
      (isNewDoc db d = true ∨ isExpiredDoc db now d = true ∨
        isUpToDateDoc db now d = true) ∧
      ¬(isNewDoc db d = true ∧ isExpiredDoc db now d = true) ∧
      ¬(isNewDoc db d = true ∧ isUpToDateDoc db now d = true) ∧
      ¬(isExpiredDoc db now d = true ∧ isUpToDateDoc db now d = true) := by
  refine ⟨categorize_eq_filters db now docs h, fun d => ?_⟩
  cases hc : check_web_page_exists db (docSrc d) with
  | none => simp [isNewDoc, isExpiredDoc, isUpToDateDoc, hc]
  | some page =>
      cases hr : is_refresh_needed now page <;>
        simp [isNewDoc, isExpiredDoc, isUpToDateDoc, hc, hr]

/-- Witness for C3: a single never-seen document lands in the new list. -/
theorem c3_categorize_partition_witness :
    (categorize_web_documents ⟨[], []⟩ 0
        [⟨some "https://c.org", none, "text"⟩]).1 =
      [Document.mk (some "https://c.org") none "text"] := by
  have h := c3_categorize_partition ⟨[], []⟩ 0
    [⟨some "https://c.org", none, "text"⟩] (by decide)
  rw [h.1]
  rfl

/-! ## Vector store client (`ChromaVectorStore`, `src/rag/vectore_stores/chroma.py`) -/

/-- The per-language Chroma collection: stored (id, chunk) pairs. -/
abbrev VecStore := List (String × Document)

/-- Model of `doc.metadata.get(key, None)` for the metadata keys the pipeline uses. -/
def getMetaKey (d : Document) (k : String) : Option String :=
  if k = "source" then d.metadata_source
  else if k = "page" then d.metadata_page
  else none

/-- The validation/record-building loop of `ChromaVectorStore.add_documents`
(`for doc, uuid in zip(documents, uuids)`): reject a chunk whose `source`
(or requested secondary key) is missing or empty, otherwise emit one
`{id, source[, page]}` record per chunk. -/
def validateChunks (sk : Option String) :
    List Document → List String → Except String (List ChunkRec)
  | [], _ => .ok []
  | _ :: _, [] => .ok []
  | d :: ds, u :: us =>
      match d.metadata_source with
      | none => .error "Missing source in document metadata"
      | some s =>
          if s = "" then .error "Missing source in document metadata"
          else
            match sk with
            | none =>
                (validateChunks sk ds us).map fun r => ⟨u, s, none⟩ :: r
            | some k =>
                match getMetaKey d k with
                | none => .error "Missing secondary key in document metadata"
                | some v =>
                    if v = "" then
                      .error "Missing secondary key in document metadata"
                    else
                      (validateChunks sk ds us).map fun r => ⟨u, s, some v⟩ :: r

/-- Model of `ChromaVectorStore.add_documents`.  `gen` is the `uuid4()` stream: when
no ids are supplied the call generates one fresh id per chunk.  All
validation happens before the underlying `vector_store.add_documents`
write; any failure is re-raised (as `RuntimeError`) with the store
untouched. -/
def add_documents (gen : Nat → String) (docs : List Document)
    (ids : Option (List String)) (secondary_key : Option String)
    (store : VecStore) : Except String (List ChunkRec) × VecStore :=
  let run := fun (uuids : List String) =>
    match validateChunks secondary_key docs uuids with
    | .error e => (Except.error e, store)
    | .ok recs => (Except.ok recs, store ++ uuids.zip docs)
  match ids with
  | some l =>
      if l.length ≠ docs.length then
        (.error "The length of ids must match the number of documents", store)
      else run l
  | none => run ((List.range docs.length).map gen)

/-- Model of `ChromaVectorStore.delete`: delete documents by ids (idempotent). -/
def vec_delete (store : VecStore) (ids : List String) : VecStore :=
  store.filter fun p => !ids.contains p.1

theorem validateChunks_error (sk : Option String) :
    ∀ (docs : List Document) (uuids : List String),
      docs.length ≤ uuids.length →
      (∃ d ∈ docs, d.metadata_source = none ∨ d.metadata_source = some "") →
      ∃ e, validateChunks sk docs uuids = .error e := by
  intro docs
  induction docs with
  | nil => intro uuids _ hbad; simp at hbad
  | cons d ds ih =>
      intro uuids hlen hbad
      match uuids with
      | [] => simp at hlen
      | u :: us =>
          cases hsrc : d.metadata_source with
          | none =>
              exact ⟨"Missing source in document metadata",
                by simp [validateChunks, hsrc]⟩
          | some s =>
              by_cases hs : s = ""
              · subst hs
                exact ⟨"Missing source in document metadata",
                  by simp [validateChunks, hsrc]⟩
              · rcases hbad with ⟨x, hx, hbadx⟩
                rcases List.mem_cons.mp hx with hxd | hxs
                · exfalso
                  rw [hxd, hsrc] at hbadx
                  rcases hbadx with hn | he
                  · exact absurd hn (by simp)
                  · exact hs (Option.some.inj he)
                · have hlen2 : ds.length ≤ us.length := by simpa using hlen
                  obtain ⟨e, he⟩ := ih us hlen2 ⟨x, hxs, hbadx⟩
                  cases sk with
                  | none =>
                      exact ⟨e, by simp [validateChunks, hsrc, hs, he,
                        Except.map]⟩
                  | some k =>
                      cases hg : getMetaKey d k with
                      | none =>
                          exact ⟨"Missing secondary key in document metadata",
                            by simp [validateChunks, hsrc, hs, hg]⟩
                      | some v =>
                          by_cases hv : v = ""
                          · subst hv
                            exact ⟨"Missing secondary key in document metadata",
                              by simp [validateChunks, hsrc, hs, hg]⟩
                          · exact ⟨e,
                              by simp [validateChunks, hsrc, hs, hg, hv, he,
                                Except.map]⟩

theorem validateChunks_ok_none :
    ∀ (docs : List Document) (uuids : List String),
      (∀ d ∈ docs, ∃ s, d.metadata_source = some s ∧ s ≠ "") →
      docs.length = uuids.length →
      validateChunks none docs uuids =
        .ok (List.zipWith (fun u d => ChunkRec.mk u (docSrc d) none)
          uuids docs) := by
  intro docs
  induction docs with
  | nil =>
      intro uuids _ hlen
      match uuids with
      | [] => rfl
      | u :: us => simp at hlen
  | cons d ds ih =>
      intro uuids hgood hlen
      match uuids with
      | [] => simp at hlen
      | u :: us =>
          obtain ⟨s, hs, hne⟩ := hgood d (List.mem_cons_self d ds)
          have hrest := ih us
            (fun x hx => hgood x (List.mem_cons_of_mem _ hx))
            (by simpa using hlen)
          simp only [validateChunks, hs, if_neg hne, hrest, Except.map,
            List.zipWith_cons_cons]
          have : docSrc d = s := by simp [docSrc, hs]
          rw [this]

/-- C6: `ChromaVectorStore.add_documents` raises when a supplied id list has
a different length than the documents, or when any document lacks a
nonempty `source` in its metadata, and in both cases the underlying store
is untouched (validation precedes the write); when validation passes it
returns exactly one `{id, source}` record per input document, the id being
the supplied one or, when no ids are supplied, the freshly generated uuid
for that position. -/
theorem c6_add_documents_validation (gen : Nat → String)
    (docs : List Document) (store : VecStore) :
    (∀ (l : List String) (sk : Option String), l.length ≠ docs.length →
        add_documents gen docs (some l) sk store =
          (.error "The length of ids must match the number of documents",
            store)) ∧
    (∀ (ids : Option (List String)) (sk : Option String),
        (∃ d ∈ docs, d.metadata_source = none ∨ d.metadata_source = some "") →
        (∃ e, (add_documents gen docs ids sk store).1 = .error e) ∧
          (add_documents gen docs ids sk store).2 = store) ∧
    (∀ uuids : List String,
        (∀ d ∈ docs, ∃ s, d.metadata_source = some s ∧ s ≠ "") →
        uuids.length = docs.length →
        add_documents gen docs (some uuids) none store =
          (.ok (List.zipWith (fun u d => ChunkRec.mk u (docSrc d) none)
              uuids docs),
            store ++ uuids.zip docs)) ∧
    ((∀ d ∈ docs, ∃ s, d.metadata_source = some s ∧ s ≠ "") →
        add_documents gen docs none none store =
          (.ok (List.zipWith (fun u d => ChunkRec.mk u (docSrc d) none)
              ((List.range docs.length).map gen) docs),
            store ++ ((List.range docs.length).map gen).zip docs)) := by
  refine ⟨fun l sk hne => by simp [add_documents, hne], ?_, ?_, ?_⟩
  · intro ids sk hbad
    cases ids with
    | some l =>
        by_cases hl : l.length = docs.length
        · have hv := validateChunks_error sk docs l (le_of_eq hl.symm) hbad
          obtain ⟨e, he⟩ := hv
          constructor
          · exact ⟨e, by simp [add_documents, hl, he]⟩
          · simp [add_documents, hl, he]
        · constructor
          · exact ⟨"The length of ids must match the number of documents",
              by simp [add_documents, hl]⟩
          · simp [add_documents, hl]
    | none =>
        have hlen : docs.length ≤ ((List.range docs.length).map gen).length :=
          by simp
        obtain ⟨e, he⟩ := validateChunks_error sk docs _ hlen hbad
        constructor
        · exact ⟨e, by simp [add_documents, he]⟩
        · simp [add_documents, he]
  · intro uuids hgood hlen
    have hv := validateChunks_ok_none docs uuids hgood hlen.symm
    simp [add_documents, hlen, hv]
  · intro hgood
    have hv := validateChunks_ok_none docs ((List.range docs.length).map gen)
      hgood (by simp)
    simp [add_documents, hv]

/-- Witness for C6: a mismatched id list is rejected, a chunk without
`source` metadata is rejected, and a valid chunk produces one record with
a generated id. -/
theorem c6_add_documents_validation_witness :
    add_documents (fun _ => "id0") [⟨some "https://a.org", none, "t"⟩]
        (some []) none [] =
      (.error "The length of ids must match the number of documents", []) ∧
    (∃ e, (add_documents (fun _ => "id0") [⟨none, none, "t"⟩]
        none none []).1 = Except.error e) ∧
    add_documents (fun _ => "id0") [⟨some "https://a.org", none, "t"⟩]
        none none [] =
      (.ok [⟨"id0", "https://a.org", none⟩],
        [("id0", ⟨some "https://a.org", none, "t"⟩)]) := by
  refine ⟨?_, ?_, ?_⟩
  · exact (c6_add_documents_validation (fun _ => "id0")
      [⟨some "https://a.org", none, "t"⟩] []).1 [] none (by decide)
  · exact ((c6_add_documents_validation (fun _ => "id0")
      [⟨none, none, "t"⟩] []).2.1 none none
      ⟨⟨none, none, "t"⟩, by simp, Or.inl rfl⟩).1
  · have h := (c6_add_documents_validation (fun _ => "id0")
      [⟨some "https://a.org", none, "t"⟩] []).2.2.2
      (by
        intro d hd
        rw [List.mem_singleton] at hd
        subst hd
        exact ⟨"https://a.org", rfl, by decide⟩)
    rw [h]
    rfl

/-! ## Orchestrator state (`DataAgent`, `src/rag/librarian.py`) -/

/-- The `Literal["en", "zh"]` language parameter selecting the vector-store
partition (`self.vector_stores[language]`). -/
inductive Lang where
  | en
  | zh
deriving DecidableEq, Repr

/-- The two per-language Chroma collections (`docs_en` / `docs_zh`). -/
structure VecState where
  en : VecStore
  zh : VecStore
deriving DecidableEq, Repr

def VecState.getL (v : VecState) : Lang → VecStore
  | .en => v.en
  | .zh => v.zh

def VecState.setL (v : VecState) : Lang → VecStore → VecState
  | .en, s => { v with en := s }
  | .zh, s => { v with zh := s }

/-- Both stores the orchestrator coordinates. -/
structure SysState where
  db : MySQLDB
  vec : VecState
deriving DecidableEq, Repr

/-- Injected environment failures for the fallible calls inside
`insert_web_data`: the two MySQL batch inserts, the relational commit, and
the compensating Chroma delete. -/
structure Beh where
  pages_insert_fails : Bool
  chunks_insert_fails : Bool
  commit_fails : Bool
  vec_delete_fails : Bool
deriving DecidableEq, Repr

/-- Model of `DataAgent.insert_web_data`: the manual 2PC insert unit of work.
Step 1 adds chunks to the language partition of Chroma; steps 2-3 insert
pages and chunk rows and commit the MySQL transaction.  On any exception
the session is rolled back (the relational store is left unchanged); if
`chunks_metadata` was assigned (the Chroma add succeeded) the handler
deletes exactly those chunk ids from the partition — keeping them if that
delete itself raises — and re-raises as `RuntimeError` (`.error ()`); if
the Chroma add itself raised, `chunks_metadata` is not in `locals()`, the
handler finishes without re-raising and the function returns `None`. -/
def insert_web_data (beh : Beh) (gen : Nat → String) (now : Int)
    (docs_metadata : List PageMeta) (chunks : List Document) (language : Lang)
    (st : SysState) : Except Unit (Option (List ChunkRec)) × SysState :=
  match add_documents gen chunks none none (st.vec.getL language) with
  | (.error _, _) => (.ok none, st)
  | (.ok recs, vecAfterAdd) =>
      if beh.pages_insert_fails || beh.chunks_insert_fails ||
          beh.commit_fails then
        let chunk_ids := recs.map fun r => r.id
        if beh.vec_delete_fails then
          (.error (), { st with vec := st.vec.setL language vecAfterAdd })
        else
          (.error (), { st with
            vec := st.vec.setL language (vec_delete vecAfterAdd chunk_ids) })
      else
        (.ok (some recs),
          { db := insert_web_page_chunks
              (insert_web_pages now st.db docs_metadata) recs,
            vec := st.vec.setL language vecAfterAdd })

theorem getL_setL_same (v : VecState) (l : Lang) (s : VecStore) :
    (v.setL l s).getL l = s := by
  cases l <;> rfl

theorem getL_setL_other (v : VecState) (l l2 : Lang) (s : VecStore)
    (h : l2 ≠ l) : (v.setL l s).getL l2 = v.getL l2 := by
  cases l <;> cases l2 <;> first | rfl | exact absurd rfl h

theorem validateChunks_none_ok_ids :
    ∀ (docs : List Document) (uuids : List String) (recs : List ChunkRec),
      validateChunks none docs uuids = .ok recs →
      recs.map (fun r => r.id) = uuids.take docs.length := by
  intro docs
  induction docs with
  | nil =>
      intro uuids recs h
      cases uuids <;> simp [validateChunks] at h <;> simp [h.symm]
  | cons d ds ih =>
      intro uuids recs h
      match uuids with
      | [] =>
          simp only [validateChunks, Except.ok.injEq] at h
          subst h
          simp
      | u :: us =>
          cases hsrc : d.metadata_source with
          | none => simp [validateChunks, hsrc] at h
          | some s =>
              by_cases hs : s = ""
              · subst hs; simp [validateChunks, hsrc] at h
              · simp only [validateChunks, hsrc, if_neg hs] at h
                cases hv : validateChunks none ds us with
                | error e => rw [hv] at h; simp [Except.map] at h
                | ok r2 =>
                    rw [hv] at h
                    simp only [Except.map, Except.ok.injEq] at h
                    subst h
                    simp only [List.map_cons, List.take_succ_cons]
                    rw [ih us r2 hv]
                    simp

theorem add_documents_none_ok_inv (gen : Nat → String)
    (docs : List Document) (store : VecStore) (recs : List ChunkRec)
    (vecAfterAdd : VecStore)
    (h : add_documents gen docs none none store = (.ok recs, vecAfterAdd)) :
    recs.map (fun r => r.id) = (List.range docs.length).map gen ∧
    vecAfterAdd = store ++ ((List.range docs.length).map gen).zip docs := by
  simp only [add_documents] at h
  cases hv : validateChunks none docs ((List.range docs.length).map gen) with
  | error e => rw [hv] at h; simp at h
  | ok r2 =>
      rw [hv] at h
      simp only [Prod.mk.injEq, Except.ok.injEq] at h
      obtain ⟨rfl, rfl⟩ := h
      refine ⟨?_, rfl⟩
      have := validateChunks_none_ok_ids docs _ r2 hv
      rwa [List.take_of_length_le (by simp)] at this

theorem vec_delete_append_zip (store : VecStore) (uuids : List String)
    (docs : List Document) :
    vec_delete (store ++ uuids.zip docs) uuids =
      store.filter fun p => !uuids.contains p.1 := by
  unfold vec_delete
  rw [List.filter_append]
  have hz : (uuids.zip docs).filter (fun p => !uuids.contains p.1) = [] := by
    rw [List.filter_eq_nil_iff]
    intro p hp
    have := (List.of_mem_zip hp).1
    simp [this]
  rw [hz, List.append_nil]

/-- C1: in `insert_web_data`, if the Chroma add succeeded (a chunk-id list
was obtained) and any of the MySQL inserts or the commit raises, then the
MySQL transaction is rolled back (relational store unchanged), exactly the
chunk ids produced by the add are deleted from that language partition
(so the partition returns to its pre-add contents minus nothing else, and
the other partition is untouched), and a `RuntimeError` propagates; if the
compensating delete itself raises, the added chunks remain in the
partition but the `RuntimeError` is still raised, with no further repair. -/
theorem c1_insert_web_data_compensation (beh : Beh) (gen : Nat → String)
    (now : Int) (docs_metadata : List PageMeta) (chunks : List Document)
    (language : Lang) (st : SysState) (recs : List ChunkRec)
    (vecAfterAdd : VecStore)
    (hadd : add_documents gen chunks none none (st.vec.getL language) =
      (.ok recs, vecAfterAdd))
    (hfail : (beh.pages_insert_fails || beh.chunks_insert_fails ||
      beh.commit_fails) = true) :
    (insert_web_data beh gen now docs_metadata chunks language st).1 =
      .error () ∧
    (insert_web_data beh gen now docs_metadata chunks language st).2.db =
      st.db ∧
    (beh.vec_delete_fails = false →
      (insert_web_data beh gen now docs_metadata chunks language
          st).2.vec.getL language =
        (st.vec.getL language).filter
          (fun p => !(recs.map fun x => x.id).contains p.1)) ∧
    (beh.vec_delete_fails = true →
      (insert_web_data beh gen now docs_metadata chunks language
          st).2.vec.getL language = vecAfterAdd) ∧
    (∀ l2, l2 ≠ language →
      (insert_web_data beh gen now docs_metadata chunks language
          st).2.vec.getL l2 = st.vec.getL l2) := by
  obtain ⟨hids, hvec⟩ := add_documents_none_ok_inv gen chunks
    (st.vec.getL language) recs vecAfterAdd hadd
  have hdel : vec_delete vecAfterAdd (recs.map fun x => x.id) =
      (st.vec.getL language).filter
        (fun p => !(recs.map fun x => x.id).contains p.1) := by
    rw [hvec, hids, vec_delete_append_zip]
  cases hdf : beh.vec_delete_fails with
  | false =>
      refine ⟨?_, ?_, ?_, ?_, ?_⟩
      · simp [insert_web_data, hadd, hfail, hdf]
      · simp [insert_web_data, hadd, hfail, hdf]
      · intro _
        simp [insert_web_data, hadd, hfail, hdf, getL_setL_same, hdel]
      · intro hc
        cases hc
      · intro l2 hl2
        simp [insert_web_data, hadd, hfail, hdf,
          getL_setL_other _ _ _ _ hl2]
  | true =>
      refine ⟨?_, ?_, ?_, ?_, ?_⟩
      · simp [insert_web_data, hadd, hfail, hdf]
      · simp [insert_web_data, hadd, hfail, hdf]
      · intro hc
        cases hc
      · intro _
        simp [insert_web_data, hadd, hfail, hdf, getL_setL_same]
      · intro l2 hl2
        simp [insert_web_data, hadd, hfail, hdf,
          getL_setL_other _ _ _ _ hl2]

/-- Witness for C1: one valid chunk, MySQL page insert fails, delete
succeeds — the error is raised, the relational store is untouched and the
partition is emptied again. -/
theorem c1_insert_web_data_compensation_witness :
    (insert_web_data ⟨true, false, false, false⟩ (fun _ => "id0") 0 []
        [⟨some "https://a.org", none, "t"⟩] Lang.en
        ⟨⟨[], []⟩, ⟨[], []⟩⟩).1 = .error () ∧
    (insert_web_data ⟨true, false, false, false⟩ (fun _ => "id0") 0 []
        [⟨some "https://a.org", none, "t"⟩] Lang.en
        ⟨⟨[], []⟩, ⟨[], []⟩⟩).2.db = MySQLDB.mk [] [] := by
  have h := c1_insert_web_data_compensation ⟨true, false, false, false⟩
    (fun _ => "id0") 0 [] [⟨some "https://a.org", none, "t"⟩] Lang.en
    ⟨⟨[], []⟩, ⟨[], []⟩⟩ [⟨"id0", "https://a.org", none⟩]
    [("id0", ⟨some "https://a.org", none, "t"⟩)] rfl rfl
  exact ⟨h.1, h.2.1⟩

/-- C10: in `insert_web_data`, if the Chroma add itself raises (so
`chunks_metadata` was never assigned), the handler rolls back the MySQL
session but does not re-raise: the call returns `None` and both stores are
left exactly as they were. -/
theorem c10_insert_web_data_add_failure (beh : Beh) (gen : Nat → String)
    (now : Int) (docs_metadata : List PageMeta) (chunks : List Document)
    (language : Lang) (st : SysState) (e : String) (v2 : VecStore)
    (hadd : add_documents gen chunks none none (st.vec.getL language) =
      (.error e, v2)) :
    insert_web_data beh gen now docs_metadata chunks language st =
      (.ok none, st) := by
  simp [insert_web_data, hadd]

/-- Witness for C10: a chunk with no `source` metadata makes the add raise;
the call returns `None` with the state untouched. -/
theorem c10_insert_web_data_add_failure_witness :
    insert_web_data ⟨false, false, false, false⟩ (fun _ => "id0") 0 []
        [⟨none, none, "t"⟩] Lang.en ⟨⟨[], []⟩, ⟨[], []⟩⟩ =
      (.ok none, ⟨⟨[], []⟩, ⟨[], []⟩⟩) :=
  c10_insert_web_data_add_failure ⟨false, false, false, false⟩
    (fun _ => "id0") 0 [] [⟨none, none, "t"⟩] Lang.en ⟨⟨[], []⟩, ⟨[], []⟩⟩
    "Missing source in document metadata" [] rfl

/-! ## Delete path (`DataAgent.delete_web_data_by_sources`) -/

/-- Model of `MySQLManager.get_web_page_chunk_ids_by_sources`. -/
def get_web_page_chunk_ids_by_sources (db : MySQLDB)
    (sources : List String) : List String :=
  if sources = [] then []
  else (db.chunks.filter fun c => sources.contains c.source).map fun c => c.id

/-- Model of `MySQLManager.delete_web_page_chunks_by_ids`. -/
def delete_web_page_chunks_by_ids (db : MySQLDB)
    (chunk_ids : List String) : MySQLDB :=
  if chunk_ids = [] then db
  else { db with chunks := db.chunks.filter fun c => !chunk_ids.contains c.id }

/-- Model of `MySQLManager.delete_web_pages_by_sources`. -/
def delete_web_pages_by_sources (db : MySQLDB)
    (sources : List String) : MySQLDB :=
  if sources = [] then db
  else { db with pages := db.pages.filter fun p => !sources.contains p.source }

/-- The `{'en': [...], 'zh': [...]}` dictionary returned by
`get_web_page_languages_by_sources`. -/
structure LangGroups where
  en : List String
  zh : List String
deriving DecidableEq, Repr

/-- The grouping loop of `get_web_page_languages_by_sources`: a source is
appended to the `'en'` or `'zh'` bucket; any other stored language is not a
key of the dictionary, so the row is silently dropped. -/
def groupByLanguage (acc : LangGroups) :
    List (String × String) → LangGroups
  | [] => acc
  | sl :: rest =>
      if sl.2 = "en" then
        groupByLanguage { acc with en := acc.en ++ [sl.1] } rest
      else if sl.2 = "zh" then
        groupByLanguage { acc with zh := acc.zh ++ [sl.1] } rest
      else groupByLanguage acc rest

/-- Model of `MySQLManager.get_web_page_languages_by_sources`. -/
def get_web_page_languages_by_sources (db : MySQLDB)
    (sources : List String) : LangGroups :=
  if sources = [] then ⟨[], []⟩
  else
    groupByLanguage ⟨[], []⟩
      ((db.pages.filter fun p => sources.contains p.source).map
        fun p => (p.source, p.language))

/-- Model of `DataAgent.delete_web_content_and_metadata`, success path: gather the
chunk ids of the given sources, delete those chunk rows and the page rows
from MySQL, delete the same ids from the language partition of Chroma,
commit. -/
def delete_web_content_and_metadata (st : SysState) (sources : List String)
    (language : Lang) : SysState :=
  let old_chunk_ids := get_web_page_chunk_ids_by_sources st.db sources
  let db1 := delete_web_page_chunks_by_ids st.db old_chunk_ids
  let db2 := delete_web_pages_by_sources db1 sources
  { db := db2,
    vec := st.vec.setL language
      (vec_delete (st.vec.getL language) old_chunk_ids) }

/-- The grouping-then-delete sequence that the body of
`DataAgent.delete_web_data_by_sources` spells out — group the input
sources by stored language, then run one delete unit of work per nonempty
bucket — as it would run with the session argument supplied to the
grouping call.  The function as written never reaches this sequence: see
`delete_web_data_by_sources`. -/
def delete_web_data_by_sources_intended (st : SysState)
    (sources : List String) : SysState :=
  let sources_by_language := get_web_page_languages_by_sources st.db sources
  let st1 :=
    if sources_by_language.en ≠ [] then
      delete_web_content_and_metadata st sources_by_language.en Lang.en
    else st
  if sources_by_language.zh ≠ [] then
    delete_web_content_and_metadata st1 sources_by_language.zh Lang.zh
  else st1

/-- Model of `DataAgent.delete_web_data_by_sources` as written: its first
statement calls
`self.mysql_manager.get_web_page_languages_by_sources(sources)` with a
single argument, but the manager method's signature is
`(self, session, sources)` (the repository's own tests call it with a
session), so Python raises `TypeError` on every invocation, before any
grouping or deletion, and no `try`/`except` in the function catches it.
Neither store is modified. -/
def delete_web_data_by_sources (st : SysState)
    (sources : List String) : Except String SysState :=
  .error "TypeError: get_web_page_languages_by_sources missing 1 required positional argument"

theorem groupByLanguage_en_mem :
    ∀ (rows : List (String × String)) (acc : LangGroups) (s : String),
      s ∈ (groupByLanguage acc rows).en →
      s ∈ acc.en ∨ (s, "en") ∈ rows := by
  intro rows
  induction rows with
  | nil => intro acc s h; exact Or.inl h
  | cons sl rest ih =>
      intro acc s h
      obtain ⟨a, b⟩ := sl
      simp only [groupByLanguage] at h
      by_cases h2 : b = "en"
      · rw [if_pos h2] at h
        rcases ih _ s h with hacc | hrest
        · rcases List.mem_append.mp hacc with h3 | h3
          · exact Or.inl h3
          · have hsa : s = a := by simpa using h3
            exact Or.inr (by simp [hsa, h2])
        · exact Or.inr (List.mem_cons_of_mem _ hrest)
      · rw [if_neg h2] at h
        by_cases h3 : b = "zh"
        · rw [if_pos h3] at h
          rcases ih _ s h with hacc | hrest
          · exact Or.inl hacc
          · exact Or.inr (List.mem_cons_of_mem _ hrest)
        · rw [if_neg h3] at h
          rcases ih _ s h with hacc | hrest
          · exact Or.inl hacc
          · exact Or.inr (List.mem_cons_of_mem _ hrest)

theorem groupByLanguage_zh_mem :
    ∀ (rows : List (String × String)) (acc : LangGroups) (s : String),
      s ∈ (groupByLanguage acc rows).zh →
      s ∈ acc.zh ∨ (s, "zh") ∈ rows := by
  intro rows
  induction rows with
  | nil => intro acc s h; exact Or.inl h
  | cons sl rest ih =>
      intro acc s h
      obtain ⟨a, b⟩ := sl
      simp only [groupByLanguage] at h
      by_cases h2 : b = "en"
      · rw [if_pos h2] at h
        rcases ih _ s h with hacc | hrest
        · exact Or.inl hacc
        · exact Or.inr (List.mem_cons_of_mem _ hrest)
      · rw [if_neg h2] at h
        by_cases h3 : b = "zh"
        · rw [if_pos h3] at h
          rcases ih _ s h with hacc | hrest
          · rcases List.mem_append.mp hacc with h4 | h4
            · exact Or.inl h4
            · have hsa : s = a := by simpa using h4
              exact Or.inr (by simp [hsa, h3])
          · exact Or.inr (List.mem_cons_of_mem _ hrest)
        · rw [if_neg h3] at h
          rcases ih _ s h with hacc | hrest
          · exact Or.inl hacc
          · exact Or.inr (List.mem_cons_of_mem _ hrest)

theorem get_languages_mem_en (db : MySQLDB) (sources : List String)
    (s : String)
    (h : s ∈ (get_web_page_languages_by_sources db sources).en) :
    ∃ q ∈ db.pages, q.source = s ∧ q.language = "en" := by
  unfold get_web_page_languages_by_sources at h
  by_cases hs : sources = []
  · rw [if_pos hs] at h; simp at h
  · rw [if_neg hs] at h
    rcases groupByLanguage_en_mem _ _ _ h with h2 | h2
    · simp at h2
    · obtain ⟨p, hp, hpe⟩ := List.mem_map.mp h2
      obtain ⟨hps, hpl⟩ := Prod.mk.injEq .. ▸ hpe
      exact ⟨p, (List.mem_filter.mp hp).1, hps, hpl⟩

theorem get_languages_mem_zh (db : MySQLDB) (sources : List String)
    (s : String)
    (h : s ∈ (get_web_page_languages_by_sources db sources).zh) :
    ∃ q ∈ db.pages, q.source = s ∧ q.language = "zh" := by
  unfold get_web_page_languages_by_sources at h
  by_cases hs : sources = []
  · rw [if_pos hs] at h; simp at h
  · rw [if_neg hs] at h
    rcases groupByLanguage_zh_mem _ _ _ h with h2 | h2
    · simp at h2
    · obtain ⟨p, hp, hpe⟩ := List.mem_map.mp h2
      obtain ⟨hps, hpl⟩ := Prod.mk.injEq .. ▸ hpe
      exact ⟨p, (List.mem_filter.mp hp).1, hps, hpl⟩

theorem chunks_del_pages (db : MySQLDB) (ids : List String) :
    (delete_web_page_chunks_by_ids db ids).pages = db.pages := by
  unfold delete_web_page_chunks_by_ids
  split <;> rfl

theorem pages_del_chunks (db : MySQLDB) (sources : List String) :
    (delete_web_pages_by_sources db sources).chunks = db.chunks := by
  unfold delete_web_pages_by_sources
  split <;> rfl

theorem chunk_id_not_gathered (db : MySQLDB) (g : List String)
    (c : WebPageChunk) (hc : c ∈ db.chunks)
    (hnid : (db.chunks.map fun x => x.id).Nodup)
    (hcs : c.source ∉ g) :
    c.id ∉ get_web_page_chunk_ids_by_sources db g := by
  intro hin
  unfold get_web_page_chunk_ids_by_sources at hin
  by_cases hg : g = []
  · rw [if_pos hg] at hin; simp at hin
  · rw [if_neg hg] at hin
    obtain ⟨c2, hc2, hc2id⟩ := List.mem_map.mp hin
    obtain ⟨hc2mem, hc2src⟩ := List.mem_filter.mp hc2
    have : c2 = c := List.inj_on_of_nodup_map hnid hc2mem hc hc2id
    subst this
    simp at hc2src
    exact hcs hc2src

theorem delete_web_content_frame (st : SysState) (g : List String)
    (lang : Lang) (page : WebPage)
    (hnid : (st.db.chunks.map fun x => x.id).Nodup)
    (hpage : page ∈ st.db.pages) (hns : page.source ∉ g) :
    page ∈ (delete_web_content_and_metadata st g lang).db.pages ∧
    (∀ c ∈ st.db.chunks, c.source = page.source →
      c ∈ (delete_web_content_and_metadata st g lang).db.chunks) ∧
    (∀ c ∈ st.db.chunks, c.source = page.source → ∀ l,
      ∀ pr ∈ st.vec.getL l, pr.1 = c.id →
        pr ∈ (delete_web_content_and_metadata st g lang).vec.getL l) := by
  refine ⟨?_, ?_, ?_⟩
  · show page ∈ (delete_web_pages_by_sources
      (delete_web_page_chunks_by_ids st.db _) g).pages
    unfold delete_web_pages_by_sources
    split
    · rw [chunks_del_pages]; exact hpage
    · rw [List.mem_filter]
      refine ⟨by rw [chunks_del_pages]; exact hpage, by simp [hns]⟩
  · intro c hc hcsrc
    have hnot := chunk_id_not_gathered st.db g c hc hnid (hcsrc ▸ hns)
    show c ∈ (delete_web_pages_by_sources
      (delete_web_page_chunks_by_ids st.db _) g).chunks
    rw [pages_del_chunks]
    unfold delete_web_page_chunks_by_ids
    split
    · exact hc
    · exact List.mem_filter.mpr ⟨hc, by simp [hnot]⟩
  · intro c hc hcsrc l pr hpr hprid
    have hnot := chunk_id_not_gathered st.db g c hc hnid (hcsrc ▸ hns)
    show pr ∈ (st.vec.setL lang
      (vec_delete (st.vec.getL lang) _)).getL l
    by_cases hl : l = lang
    · subst hl
      rw [getL_setL_same]
      exact List.mem_filter.mpr ⟨hpr, by simp [hprid, hnot]⟩
    · rw [getL_setL_other _ _ _ _ hl]
      exact hpr

theorem delete_web_content_chunks_sublist (st : SysState) (g : List String)
    (lang : Lang) :
    ((delete_web_content_and_metadata st g lang).db.chunks).Sublist
      st.db.chunks := by
  show ((delete_web_pages_by_sources
    (delete_web_page_chunks_by_ids st.db _) g).chunks).Sublist st.db.chunks
  rw [pages_del_chunks]
  unfold delete_web_page_chunks_by_ids
  split
  · exact List.Sublist.refl _
  · exact List.filter_sublist _

theorem delete_web_content_vec_sub (st : SysState) (g : List String)
    (lang : Lang) (l : Lang) (pr : String × Document)
    (h : pr ∈ (delete_web_content_and_metadata st g lang).vec.getL l) :
    pr ∈ st.vec.getL l := by
  by_cases hl : l = lang
  · rw [hl] at h ⊢
    rw [show (delete_web_content_and_metadata st g lang).vec =
      st.vec.setL lang (vec_delete (st.vec.getL lang) _) from rfl,
      getL_setL_same] at h
    exact (List.mem_filter.mp h).1
  · rwa [show (delete_web_content_and_metadata st g lang).vec =
      st.vec.setL lang (vec_delete (st.vec.getL lang) _) from rfl,
      getL_setL_other _ _ _ _ hl] at h

theorem delete_web_data_intended_eq (st : SysState) (sources : List String) :
    delete_web_data_by_sources_intended st sources =
      (if (get_web_page_languages_by_sources st.db sources).zh ≠ [] then
        delete_web_content_and_metadata
          (if (get_web_page_languages_by_sources st.db sources).en ≠ [] then
            delete_web_content_and_metadata st
              (get_web_page_languages_by_sources st.db sources).en Lang.en
          else st)
          (get_web_page_languages_by_sources st.db sources).zh Lang.zh
      else
        (if (get_web_page_languages_by_sources st.db sources).en ≠ [] then
          delete_web_content_and_metadata st
            (get_web_page_languages_by_sources st.db sources).en Lang.en
        else st)) := rfl

/-- The intended pipeline only ever deletes rows whose stored language is
exactly `"en"` or `"zh"`: the grouping step drops every source whose
stored language is anything else, so such a `WebPage`, all its chunk rows,
and all its vector-store entries survive unchanged in both stores even
when its source is in the input list.  The `Nodup` hypotheses are the
schema's unique constraints (unique `checksum` determines the source;
`id` is the chunk primary key). -/
theorem delete_web_data_intended_only_en_zh (st : SysState)
    (sources : List String) (page : WebPage)
    (hnsrc : (st.db.pages.map fun p => p.source).Nodup)
    (hnid : (st.db.chunks.map fun c => c.id).Nodup)
    (hmem : page ∈ st.db.pages)
    (hen : page.language ≠ "en") (hzh : page.language ≠ "zh") :
    page ∈ (delete_web_data_by_sources_intended st sources).db.pages ∧
    (∀ c ∈ st.db.chunks, c.source = page.source →
      c ∈ (delete_web_data_by_sources_intended st sources).db.chunks) ∧
    (∀ c ∈ st.db.chunks, c.source = page.source → ∀ l,
      ∀ pr ∈ st.vec.getL l, pr.1 = c.id →
        pr ∈ (delete_web_data_by_sources_intended st sources).vec.getL l)
    := by
  have hgen : page.source ∉
      (get_web_page_languages_by_sources st.db sources).en := by
    intro h
    obtain ⟨q, hq, hqs, hql⟩ := get_languages_mem_en st.db sources _ h
    have hqp : q = page := List.inj_on_of_nodup_map hnsrc hq hmem hqs
    exact hen (hqp ▸ hql)
  have hgzh : page.source ∉
      (get_web_page_languages_by_sources st.db sources).zh := by
    intro h
    obtain ⟨q, hq, hqs, hql⟩ := get_languages_mem_zh st.db sources _ h
    have hqp : q = page := List.inj_on_of_nodup_map hnsrc hq hmem hqs
    exact hzh (hqp ▸ hql)
  have step : ∀ (stA : SysState) (g : List String) (lg : Lang),
      page ∈ stA.db.pages →
      ((stA.db.chunks.map fun x => x.id).Nodup) →
      page.source ∉ g →
      (page ∈ (if g ≠ [] then
          delete_web_content_and_metadata stA g lg else stA).db.pages ∧
       (∀ c ∈ stA.db.chunks, c.source = page.source →
          c ∈ (if g ≠ [] then
            delete_web_content_and_metadata stA g lg else stA).db.chunks) ∧
       (∀ c ∈ stA.db.chunks, c.source = page.source → ∀ l,
          ∀ pr ∈ stA.vec.getL l, pr.1 = c.id →
            pr ∈ (if g ≠ [] then
              delete_web_content_and_metadata stA g lg
              else stA).vec.getL l) ∧
       ((if g ≠ [] then delete_web_content_and_metadata stA g lg
          else stA).db.chunks).Sublist stA.db.chunks) := by
    intro stA g lg hp hn hns
    by_cases hg : g ≠ []
    · rw [if_pos hg]
      obtain ⟨ha, hb, hc⟩ := delete_web_content_frame stA g lg page hn hp hns
      exact ⟨ha, hb, hc, delete_web_content_chunks_sublist stA g lg⟩
    · rw [if_neg hg]
      exact ⟨hp, fun c hc _ => hc, fun c hc _ l pr hpr _ => hpr,
        List.Sublist.refl _⟩
  obtain ⟨h1p, h1c, h1v, h1s⟩ :=
    step st (get_web_page_languages_by_sources st.db sources).en Lang.en
      hmem hnid hgen
  have hnid1 : (((if (get_web_page_languages_by_sources st.db sources).en
      ≠ [] then
        delete_web_content_and_metadata st
          (get_web_page_languages_by_sources st.db sources).en Lang.en
      else st).db.chunks).map fun x => x.id).Nodup :=
    hnid.sublist (h1s.map _)
  obtain ⟨h2p, h2c, h2v, h2s⟩ :=
    step _ (get_web_page_languages_by_sources st.db sources).zh Lang.zh
      h1p hnid1 hgzh
  rw [delete_web_data_intended_eq]
  refine ⟨h2p, ?_, ?_⟩
  · intro c hc hcs
    exact h2c c (h1c c hc hcs) hcs
  · intro c hc hcs l pr hpr hprid
    exact h2v c (h1c c hc hcs) hcs l pr (h1v c hc hcs l pr hpr hprid) hprid

/-- A store holding one web page with stored language `"fr"`, its chunk
row, and its vector entry — the failing input for the delete-by-sources
unit of work. -/
def c9State : SysState :=
  ⟨⟨[⟨"https://f.org", "ck", 0, none, "fr"⟩],
    [⟨"c1", "https://f.org"⟩]⟩,
   ⟨[("c1", ⟨some "https://f.org", none, "x"⟩)], []⟩⟩

/-- C9: code bug.  `DataAgent.delete_web_data_by_sources` passes only
`sources` to `get_web_page_languages_by_sources`, whose signature — also
exercised by the repository's tests — requires `(session, sources)`, so
every call raises `TypeError` before any grouping or deletion and leaves
both stores untouched.  The grouping-then-delete sequence the body spells
out does satisfy the claim: run on the failing input with its source in
the input list, the `"fr"` page, its chunk row and its vector entry all
survive. -/
theorem c9_delete_web_data_by_sources_bug :
    (∀ (st : SysState) (sources : List String),
      delete_web_data_by_sources st sources = .error
        "TypeError: get_web_page_languages_by_sources missing 1 required positional argument") ∧
    WebPage.mk "https://f.org" "ck" 0 none "fr" ∈
      (delete_web_data_by_sources_intended c9State
        ["https://f.org"]).db.pages ∧
    WebPageChunk.mk "c1" "https://f.org" ∈
      (delete_web_data_by_sources_intended c9State
        ["https://f.org"]).db.chunks ∧
    ("c1", (⟨some "https://f.org", none, "x"⟩ : Document)) ∈
      (delete_web_data_by_sources_intended c9State
        ["https://f.org"]).vec.getL Lang.en := by
  exact ⟨fun st sources => rfl, by decide, by decide, by decide⟩

/-! ## Crawler URL filters (`WebScraper`, `src/rag/scrapers/web_scraper.py`) -/

/-- Python `s.startswith(pre)`. -/
def startswith (s pre : String) : Bool := pre.data.isPrefixOf s.data

/-- The result of `urllib.parse.urlparse`. -/
structure ParsedUrl where
  scheme : String
  netloc : String
  path : String
  query : String
  fragment : String
deriving DecidableEq, Repr

def splitOnChar (cs : List Char) (c : Char) : List Char × List Char :=
  ((cs.takeWhile fun x => x ≠ c), (cs.dropWhile fun x => x ≠ c).drop 1)

def breakOnSub (sep : List Char) : List Char → Option (List Char × List Char)
  | [] => none
  | c :: rest =>
      if sep.isPrefixOf (c :: rest) then
        some ([], (c :: rest).drop sep.length)
      else (breakOnSub sep rest).map fun p => (c :: p.1, p.2)

/-- Model of `urllib.parse.urlparse` for the absolute `scheme://netloc/path` URLs
the crawler handles: the fragment is everything after the first `#`, the
query everything after the first `?` before that, the netloc runs from
`://` to the next `/`, and the rest is the path. -/
def urlparse (url : String) : ParsedUrl :=
  let cs := url.data
  let p1 := splitOnChar cs '#'
  let p2 := splitOnChar p1.1 '?'
  match breakOnSub [':', '/', '/'] p2.1 with
  | some sp =>
      { scheme := ⟨sp.1⟩
        netloc := ⟨sp.2.takeWhile fun x => x ≠ '/'⟩
        path := ⟨sp.2.dropWhile fun x => x ≠ '/'⟩
        query := ⟨p2.2⟩
        fragment := ⟨p1.2⟩ }
  | none =>
      { scheme := ""
        netloc := ""
        path := ⟨p2.1⟩
        query := ⟨p2.2⟩
        fragment := ⟨p1.2⟩ }

/-- Model of `WebScraper._is_valid_url`: both a scheme and a network location. -/
def is_valid_url (url : String) : Bool :=
  let parsed := urlparse url
  (parsed.netloc != "") && (parsed.scheme != "")

/-- Model of `WebScraper._is_valid_suburl`: same netloc; child path starts with the
root path, carries no fragment or query, and is not the root path itself. -/
def is_valid_suburl (root_url_parsed child_url_parsed : ParsedUrl) : Bool :=
  if root_url_parsed.netloc != child_url_parsed.netloc then false
  else if !(startswith child_url_parsed.path root_url_parsed.path) then false
  else if (child_url_parsed.fragment != "") ||
      (child_url_parsed.query != "") then false
  else if child_url_parsed.path == root_url_parsed.path then false
  else true

/-- Model of `WebScraper._exclude_keywords` (a Python set; only membership is
used). -/
def exclude_keywords : List String :=
  ["about", "about-us", "contact", "contact-us", "help", "help-centre",
   "help-center", "career", "careers", "job", "jobs", "privacy", "terms",
   "policy", "faq", "support", "login", "register", "signup", "sign-up",
   "subscribe", "unsubscribe", "donate", "shop", "store", "cart",
   "checkout", "search", "events", "programmes"]

/-- Python `s.strip('/')`. -/
def stripSlashes (cs : List Char) : List Char :=
  ((cs.dropWhile fun x => x = '/').reverse.dropWhile fun x => x = '/').reverse

/-- Model of `WebScraper._should_exclude`: the first path segment is an exclusion
keyword.  (Python `str.split` never returns an empty list, so the
`len(path_segments) > 0` guard is always true.) -/
def should_exclude (child_url_parsed : ParsedUrl) : Bool :=
  match (stripSlashes child_url_parsed.path.data).splitOn '/' with
  | [] => false
  | s :: _ => exclude_keywords.contains ⟨s⟩

theorem isPrefixOf_length_lt {l1 l2 : List Char}
    (h : l1.isPrefixOf l2 = true) (hne : l1 ≠ l2) :
    l1.length < l2.length := by
  induction l1 generalizing l2 with
  | nil =>
      cases l2 with
      | nil => exact absurd rfl hne
      | cons b bs => simp
  | cons a as ih =>
      cases l2 with
      | nil => simp [List.isPrefixOf] at h
      | cons b bs =>
          simp only [List.isPrefixOf, Bool.and_eq_true, beq_iff_eq] at h
          obtain ⟨rfl, h2⟩ := h
          have : as ≠ bs := fun he => hne (by rw [he])
          simpa using ih h2 this

/-- C5: the sub-URL filter accepts a neighbor iff it has the same network
location, its path is strictly longer than and prefixed by the current
page's path, and it carries no fragment and no query; in particular for
current page `https://x.org/a/b`, `https://x.org/a/b/c` is accepted and
`https://x.org/a`, `https://x.org/a/b#frag`, `https://x.org/a/b?q=1` and
`https://x.org/a/b` itself are rejected. -/
theorem c5_is_valid_suburl_iff (root child : ParsedUrl) :
    (is_valid_suburl root child = true ↔
      (root.netloc = child.netloc ∧
       root.path.data.isPrefixOf child.path.data = true ∧
       root.path.data.length < child.path.data.length ∧
       child.fragment = "" ∧ child.query = "")) ∧
    is_valid_suburl (urlparse "https://x.org/a/b")
      (urlparse "https://x.org/a/b/c") = true ∧
    is_valid_suburl (urlparse "https://x.org/a/b")
      (urlparse "https://x.org/a") = false ∧
    is_valid_suburl (urlparse "https://x.org/a/b")
      (urlparse "https://x.org/a/b#frag") = false ∧
    is_valid_suburl (urlparse "https://x.org/a/b")
      (urlparse "https://x.org/a/b?q=1") = false ∧
    is_valid_suburl (urlparse "https://x.org/a/b")
      (urlparse "https://x.org/a/b") = false := by
  refine ⟨?_, by decide, by decide, by decide, by decide, by decide⟩
  unfold is_valid_suburl startswith
  constructor
  · intro h
    split_ifs at h with h1 h2 h3 h4
    simp only [bne_iff_ne, ne_eq, not_not] at h1
    simp only [Bool.not_eq_true', Bool.not_eq_false] at h2
    simp only [Bool.or_eq_true, bne_iff_ne, ne_eq, not_or, not_not] at h3
    simp only [beq_iff_eq] at h4
    refine ⟨h1, h2, ?_, h3.1, h3.2⟩
    exact isPrefixOf_length_lt h2
      (fun he => h4 (String.ext he.symm ▸ rfl))
  · rintro ⟨h1, h2, h3, h4, h5⟩
    have hne : (child.path == root.path) = false := by
      rw [beq_eq_false_iff_ne]
      intro he
      rw [he] at h3
      exact lt_irrefl _ h3
    simp [h1, h2, h3, h4, h5, hne]

/-- Witness for C5: the filter accepts `/a` → `/a/b` because the parsed
components satisfy the right-hand side of the equivalence. -/
theorem c5_is_valid_suburl_iff_witness :
    is_valid_suburl (urlparse "https://x.org/a")
      (urlparse "https://x.org/a/b") = true :=
  ((c5_is_valid_suburl_iff (urlparse "https://x.org/a")
    (urlparse "https://x.org/a/b")).1).mpr (by decide)

/-! ## BFS crawl (`WebScraper.scrape`)

The network is a parameter: `load u` is the Document produced by
`WebBaseLoader(u).load()` (`none` when no document is obtained) and
`links u` is the list of absolute neighbor URLs found on the page
(`href` values resolved through `urljoin`; `none` models a failed
`requests.get`, whose handler logs and `continue`s). -/

structure CrawlWorld where
  load : String → Option Document
  links : String → Option (List String)

/-- The `if not doc[0].metadata.get('source', None)` fixup in
`_langchain_load_url`. -/
def fixSource (u : String) (d : Document) : Document :=
  match d.metadata_source with
  | none => { d with metadata_source := some u }
  | some "" => { d with metadata_source := some u }
  | some _ => d

/-- Model of `WebScraper._langchain_load_url`: skip the empty URL and any URL in the
scraped-URL ledger; on a successful load, record the URL in the ledger. -/
def langchain_load_url (w : CrawlWorld) (scraped_urls : List String)
    (url : String) : Option Document × List String :=
  if url = "" then (none, scraped_urls)
  else if url ∈ scraped_urls then (none, scraped_urls)
  else
    match w.load url with
    | none => (none, scraped_urls)
    | some d => (some (fixSource url d), scraped_urls ++ [url])

structure ScrapeState where
  queue : List String
  visited : List String
  docs : List Document
  scraped_urls : List String
  pages_scraped : Nat
deriving DecidableEq, Repr

/-- The neighbor loop of `scrape`: enqueue a link only if it is a valid
absolute URL, not yet visited, a valid sub-URL of the current page, and not
excluded by keyword. -/
def enqueue_neighbors (cur : ParsedUrl) (queue visited : List String) :
    List String → List String × List String
  | [] => (queue, visited)
  | nei :: rest =>
      if !is_valid_url nei then enqueue_neighbors cur queue visited rest
      else if nei ∈ visited then enqueue_neighbors cur queue visited rest
      else if !is_valid_suburl cur (urlparse nei) then
        enqueue_neighbors cur queue visited rest
      else if should_exclude (urlparse nei) then
        enqueue_neighbors cur queue visited rest
      else enqueue_neighbors cur (queue ++ [nei]) (visited ++ [nei]) rest

/-- One iteration of the `scrape` loop body for the dequeued
`current_url`: attempt the (ledger-aware) load, then extract links and
enqueue the valid neighbors.  Note the body never `continue`s after a
ledger-skipped or empty load: link extraction and enqueueing still run for
that URL. -/
def scrapeStep (w : CrawlWorld) (st : ScrapeState) (current_url : String)
    (qrest : List String) : ScrapeState :=
  let lr := langchain_load_url w st.scraped_urls current_url
  let st2 : ScrapeState :=
    match lr.1 with
    | some d =>
        { st with
          docs := st.docs ++ [d]
          pages_scraped := st.pages_scraped + 1
          scraped_urls := lr.2
          queue := qrest }
    | none =>
        { st with
          scraped_urls := lr.2
          queue := qrest }
  match w.links current_url with
  | none => st2
  | some ls =>
      let qv := enqueue_neighbors (urlparse current_url) st2.queue
        st.visited ls
      { st2 with
        queue := qv.1
        visited := qv.2 }

/-- The `while queue and pages_scraped < max_pages` loop of
`WebScraper.scrape`, with explicit fuel (the loop body runs at most `fuel`
times). -/
def scrapeLoop (w : CrawlWorld) (max_pages : Nat) :
    Nat → ScrapeState → ScrapeState
  | 0, st => st
  | fuel + 1, st =>
      match st.queue with
      | [] => st
      | current_url :: qrest =>
          if st.pages_scraped < max_pages then
            scrapeLoop w max_pages fuel (scrapeStep w st current_url qrest)
          else st

/-- Model of `WebScraper.scrape(url, max_pages, autodownload)`: BFS from the root.
The autodownload branch only appends to the downloaded-files list and is
orthogonal to the documents and the frontier, so it is not modelled. -/
def scrape (w : CrawlWorld) (scraped_urls0 : List String) (url : String)
    (max_pages fuel : Nat) : ScrapeState :=
  scrapeLoop w max_pages fuel
    { queue := [url], visited := [url], docs := [],
      scraped_urls := scraped_urls0, pages_scraped := 0 }

theorem langchain_load_url_none_ledger (w : CrawlWorld)
    (scraped : List String) (u : String)
    (h : (langchain_load_url w scraped u).1 = none) :
    (langchain_load_url w scraped u).2 = scraped := by
  unfold langchain_load_url at h ⊢
  by_cases h1 : u = ""
  · rw [if_pos h1]
  · rw [if_neg h1] at h ⊢
    by_cases h2 : u ∈ scraped
    · rw [if_pos h2]
    · rw [if_neg h2] at h ⊢
      cases hl : w.load u with
      | none => rfl
      | some d => rw [hl] at h; exact Option.noConfusion h

theorem langchain_load_url_some_inv (w : CrawlWorld)
    (scraped : List String) (u : String) (d' : Document)
    (h : (langchain_load_url w scraped u).1 = some d') :
    u ∉ scraped ∧ ∃ d0, w.load u = some d0 ∧ d' = fixSource u d0 ∧
      (langchain_load_url w scraped u).2 = scraped ++ [u] := by
  by_cases h1 : u = ""
  · exfalso
    unfold langchain_load_url at h
    rw [if_pos h1] at h
    simp at h
  · by_cases h2 : u ∈ scraped
    · exfalso
      unfold langchain_load_url at h
      rw [if_neg h1, if_pos h2] at h
      simp at h
    · cases hl : w.load u with
      | none =>
          exfalso
          unfold langchain_load_url at h
          rw [if_neg h1, if_neg h2, hl] at h
          simp at h
      | some d0 =>
          have he : langchain_load_url w scraped u =
              (some (fixSource u d0), scraped ++ [u]) := by
            unfold langchain_load_url
            rw [if_neg h1, if_neg h2, hl]
          rw [he] at h
          simp only [Option.some.injEq] at h
          exact ⟨h2, d0, rfl, h.symm, by rw [he]⟩

theorem scrapeStep_docs_count (w : CrawlWorld) (st : ScrapeState)
    (cu : String) (qrest : List String)
    (h : st.docs.length = st.pages_scraped) :
    (scrapeStep w st cu qrest).docs.length =
      (scrapeStep w st cu qrest).pages_scraped ∧
    (scrapeStep w st cu qrest).pages_scraped ≤ st.pages_scraped + 1 := by
  unfold scrapeStep
  cases hload : (langchain_load_url w st.scraped_urls cu).1 with
  | none => cases hlinks : w.links cu <;> simp [h, hload, hlinks]
  | some d => cases hlinks : w.links cu <;> simp [h, hload, hlinks]

theorem scrapeLoop_docs_count (w : CrawlWorld) (max_pages : Nat) :
    ∀ (fuel : Nat) (st : ScrapeState),
      st.docs.length = st.pages_scraped →
      st.pages_scraped ≤ max_pages →
      (scrapeLoop w max_pages fuel st).docs.length =
        (scrapeLoop w max_pages fuel st).pages_scraped ∧
      (scrapeLoop w max_pages fuel st).pages_scraped ≤ max_pages := by
  intro fuel
  induction fuel with
  | zero => intro st h1 h2; exact ⟨h1, h2⟩
  | succ n ih =>
      intro st h1 h2
      cases hq : st.queue with
      | nil =>
          simp only [scrapeLoop, hq]
          exact ⟨h1, h2⟩
      | cons cu qrest =>
          by_cases hc : st.pages_scraped < max_pages
          · simp only [scrapeLoop, hq, if_pos hc]
            obtain ⟨s1, s2⟩ := scrapeStep_docs_count w st cu qrest h1
            exact ih _ s1 (by omega)
          · simp only [scrapeLoop, hq, if_neg hc]
            exact ⟨h1, h2⟩

/-- A crawl world for exercising the page bound: the root fails to load
but links to one loadable page. -/
def c7World : CrawlWorld :=
  { load := fun u =>
      if u = "https://y.org/a/b" then some ⟨some u, none, "B"⟩ else none
    links := fun u =>
      if u = "https://y.org/a" then some ["https://y.org/a/b"] else some [] }

/-- C7: the scrape loop keeps the number of successfully-loaded documents
at or below `max_pages`; the bound counts loaded documents, not nodes
visited — concretely, with `max_pages = 1` a root URL that fails to load
does not consume the budget, and the document found one hop away is still
returned. -/
theorem c7_scrape_docs_bound (w : CrawlWorld) (scraped_urls0 : List String)
    (url : String) (max_pages fuel : Nat) (h : 1 ≤ max_pages) :
    (scrape w scraped_urls0 url max_pages fuel).docs.length ≤ max_pages ∧
    (scrape c7World [] "https://y.org/a" 1 5).docs =
      [⟨some "https://y.org/a/b", none, "B"⟩] ∧
    (scrape c7World [] "https://y.org/a" 1 5).visited =
      ["https://y.org/a", "https://y.org/a/b"] := by
  refine ⟨?_, by decide, by decide⟩
  obtain ⟨h1, h2⟩ := scrapeLoop_docs_count w max_pages fuel
    { queue := [url], visited := [url], docs := [],
      scraped_urls := scraped_urls0, pages_scraped := 0 } rfl
    (Nat.zero_le _)
  unfold scrape
  omega

/-- Witness for C7 at a concrete crawl. -/
theorem c7_scrape_docs_bound_witness :
    (scrape c7World [] "https://y.org/a" 1 5).docs.length ≤ 1 :=
  (c7_scrape_docs_bound c7World [] "https://y.org/a" 1 5 (le_refl 1)).1

theorem scrapeStep_origin (w : CrawlWorld) (ledger0 : List String)
    (st : ScrapeState) (cu : String) (qrest : List String)
    (hsub : ∀ u ∈ ledger0, u ∈ st.scraped_urls)
    (hdocs : ∀ d ∈ st.docs, ∃ u d0, u ∉ ledger0 ∧ w.load u = some d0 ∧
      d = fixSource u d0) :
    (∀ u ∈ ledger0, u ∈ (scrapeStep w st cu qrest).scraped_urls) ∧
    (∀ d ∈ (scrapeStep w st cu qrest).docs,
      ∃ u d0, u ∉ ledger0 ∧ w.load u = some d0 ∧ d = fixSource u d0) := by
  unfold scrapeStep
  cases hload : (langchain_load_url w st.scraped_urls cu).1 with
  | none =>
      have hl2 := langchain_load_url_none_ledger w st.scraped_urls cu hload
      cases hlinks : w.links cu <;>
        simp only [hload, hlinks, hl2] <;> exact ⟨hsub, hdocs⟩
  | some d =>
      obtain ⟨hnin, d0, hw, hd, hl2⟩ :=
        langchain_load_url_some_inv w st.scraped_urls cu d hload
      have hcu : cu ∉ ledger0 := fun hc => hnin (hsub cu hc)
      have hnew : ∀ x ∈ st.docs ++ [d], ∃ u d0, u ∉ ledger0 ∧
          w.load u = some d0 ∧ x = fixSource u d0 := by
        intro x hx
        rcases List.mem_append.mp hx with hx1 | hx1
        · exact hdocs x hx1
        · have : x = d := by simpa using hx1
          exact ⟨cu, d0, hcu, hw, this ▸ hd⟩
      have hled : ∀ u ∈ ledger0, u ∈ st.scraped_urls ++ [cu] :=
        fun u hu => List.mem_append.mpr (Or.inl (hsub u hu))
      cases hlinks : w.links cu <;>
        simp only [hload, hlinks, hl2] <;> exact ⟨hled, hnew⟩

theorem scrapeLoop_docs_origin (w : CrawlWorld) (max_pages : Nat)
    (ledger0 : List String) :
    ∀ (fuel : Nat) (st : ScrapeState),
      (∀ u ∈ ledger0, u ∈ st.scraped_urls) →
      (∀ d ∈ st.docs, ∃ u d0, u ∉ ledger0 ∧ w.load u = some d0 ∧
        d = fixSource u d0) →
      ∀ d ∈ (scrapeLoop w max_pages fuel st).docs,
        ∃ u d0, u ∉ ledger0 ∧ w.load u = some d0 ∧ d = fixSource u d0 := by
  intro fuel
  induction fuel with
  | zero => intro st _ hdocs; exact hdocs
  | succ n ih =>
      intro st hsub hdocs
      cases hq : st.queue with
      | nil =>
          simp only [scrapeLoop, hq]
          exact hdocs
      | cons cu qrest =>
          by_cases hc : st.pages_scraped < max_pages
          · simp only [scrapeLoop, hq, if_pos hc]
            obtain ⟨s1, s2⟩ := scrapeStep_origin w ledger0 st cu qrest
              hsub hdocs
            exact ih _ s1 s2
          · simp only [scrapeLoop, hq, if_neg hc]
            exact hdocs

/-- A crawl world where the root URL is already in the scraped-URL ledger
and links to one loadable page. -/
def c2World : CrawlWorld :=
  { load := fun u =>
      if u = "https://x.org/a/b" then some ⟨some u, none, "B"⟩ else none
    links := fun u =>
      if u = "https://x.org/a" then some ["https://x.org/a/b"] else some [] }

/-- C2, counterexample to the claim as stated: the root URL is in the
ledger, yet a hyperlink found on its page is enqueued (it ends up in
`visited`) and even loaded — the returned document list is nonempty, which
the claim ("no hyperlink found on that page is enqueued onto the BFS
frontier") forbids. -/
theorem c2_ledger_traversal_counterexample :
    "https://x.org/a" ∈ (["https://x.org/a"] : List String) ∧
    (scrape c2World ["https://x.org/a"] "https://x.org/a" 1 5).docs =
      [⟨some "https://x.org/a/b", none, "B"⟩] ∧
    "https://x.org/a/b" ∈
      (scrape c2World ["https://x.org/a"] "https://x.org/a" 1 5).visited := by
  decide

/-- C2, amended: a URL in the scraped-URL ledger is skipped for loading —
every Document in the returned list comes from loading a URL that was not
in the ledger — but its outbound links ARE still enqueued and traversed
(the code has no `continue` after a ledger skip): concretely, with the
ledger root of `c2World`, the page one hop behind the ledger URL is
crawled and returned. -/
theorem c2_ledger_skip_load_not_traversal (w : CrawlWorld)
    (ledger0 : List String) (url : String) (max_pages fuel : Nat) :
    (∀ d ∈ (scrape w ledger0 url max_pages fuel).docs,
      ∃ u d0, u ∉ ledger0 ∧ w.load u = some d0 ∧ d = fixSource u d0) ∧
    (scrape c2World ["https://x.org/a"] "https://x.org/a" 1 5).docs =
      [⟨some "https://x.org/a/b", none, "B"⟩] := by
  refine ⟨?_, by decide⟩
  exact scrapeLoop_docs_origin w max_pages ledger0 fuel
    { queue := [url], visited := [url], docs := [],
      scraped_urls := ledger0, pages_scraped := 0 }
    (fun u hu => hu) (by simp)

/-- Witness for C2 (amended): applying the origin property to the one
document returned in the concrete crawl yields its off-ledger source. -/
theorem c2_ledger_skip_load_not_traversal_witness :
    ∃ u d0, u ∉ (["https://x.org/a"] : List String) ∧
      c2World.load u = some d0 ∧
      (⟨some "https://x.org/a/b", none, "B"⟩ : Document) =
        fixSource u d0 := by
  have h := c2_ledger_skip_load_not_traversal c2World ["https://x.org/a"]
    "https://x.org/a" 1 5
  exact h.1 ⟨some "https://x.org/a/b", none, "B"⟩ (by rw [h.2]; decide)
